import Mathlib

set_option linter.unusedSectionVars false

/-!
Verification of the cdk mint core against its natural-language specification.

The Rust sources are shallowly embedded: hash maps become association
lists (`Store`), machine integers become `Nat` with explicit `2^64`
bounds where overflow matters, fallible operations return `Except`, and
the `todo!()` macro is modelled as an explicit panic outcome.  Opaque
byte strings (UUIDs, 33-byte compressed points, bolt11 invoice strings,
witness signature strings) are modelled as `Nat` tokens; the DHKE
primitives (`hash_to_curve`, `sign_message`, `verify_message`) are
modelled as injective encodings, which is faithful at the plumbing
level since the code treats them as black boxes.
-/

namespace Cdk

/-- Association-list model of `HashMap`: later `insert` overwrites the
binding in place, otherwise appends.  Iteration order of a Rust
`HashMap` is unspecified; this model fixes insertion order, which no
verified property depends on beyond determinism. -/
abbrev Store (K V : Type) : Type := List (K × V)

namespace Store

variable {K V : Type} [DecidableEq K]

/-- Empty map. -/
def empty {K V : Type} : Store K V := []

/-- Lookup of the first (unique, given nodup keys) binding. -/
def lookup : Store K V → K → Option V
  | [], _ => none
  | (a, b) :: t, k => if a = k then some b else lookup t k

/-- Insert with overwrite-in-place semantics. -/
def insert : Store K V → K → V → Store K V
  | [], k, v => [(k, v)]
  | (a, b) :: t, k, v => if a = k then (k, v) :: t else (a, b) :: insert t k v

/-- Remove a binding by key (used to model `HashMap::remove`). -/
def eraseKey : Store K V → K → Store K V
  | [], _ => []
  | (a, b) :: t, k => if a = k then t else (a, b) :: eraseKey t k

/-- Keys in iteration order. -/
def keys (m : Store K V) : List K := m.map Prod.fst

/-- Values in iteration order (models `HashMap::values`). -/
def values (m : Store K V) : List V := m.map Prod.snd

/-- Keep only the bindings whose value satisfies `p` (models `retain`). -/
def retainValues (m : Store K V) (p : V → Bool) : Store K V :=
  m.filter (fun kv => p kv.2)

/-- Drain `src` into `dst`, models the `merge!` macro of
`mint_memory.rs`: every binding of `src` is inserted into `dst`. -/
def drainInto (dst src : Store K V) : Store K V :=
  src.foldl (fun acc kv => acc.insert kv.1 kv.2) dst

/-- Keys are pairwise distinct. -/
def NodupKeys (m : Store K V) : Prop := m.keys.Nodup

end Store

/-! ## Data model

Types re-exported from the `cashu`/`cdk-common` crates are not present
in `src/` (only their re-export stubs and callers are); their shapes are
modelled from §3 and §6 of the spec, as noted on each declaration. -/

/-- Modelled from the spec: `CurrencyUnit` is a small enumerated tag;
each unit maps to a BIP32 derivation index (`derivation_index`). -/
inductive CurrencyUnit : Type where
  | sat : CurrencyUnit
  | msat : CurrencyUnit
  | usd : CurrencyUnit
  | eur : CurrencyUnit
  | custom : Nat → CurrencyUnit
deriving DecidableEq

/-- Modelled from the spec: the BIP32 derivation index of a unit;
custom units have none. -/
def CurrencyUnit.derivationIndex : CurrencyUnit → Option Nat
  | .sat => some 0
  | .msat => some 1
  | .usd => some 2
  | .eur => some 3
  | .custom _ => none

/-- Derivation paths `m/0'/unit_index'/keyset_index'` are modelled as
their list of child indexes (all hardened per §6). -/
abbrev DerivPath : Type := List Nat

/-- Keyset id: the spec (§3) defines it as a deterministic digest of
the keyset public keys, with id equality implying keyset equality.  The
public keys are a function of the derivation path and `max_order` under
a fixed master key, so the id is modelled as that pair (an injective
digest). -/
structure KeysetId : Type where
  path : DerivPath
  maxOrder : Nat
deriving DecidableEq

/-- Modelled from the spec (§3): persisted keyset metadata.  The wall
clock fields `valid_from`/`valid_to` are omitted: no verified claim
mentions them. -/
structure MintKeySetInfo : Type where
  id : KeysetId
  unit : CurrencyUnit
  active : Bool
  derivationPath : DerivPath
  derivationPathIndex : Option Nat
  maxOrder : Nat
  inputFeePpk : Nat
deriving DecidableEq

/-- Modelled from the spec (§3): mint-quote states. -/
inductive MintQuoteState : Type where
  | unpaid : MintQuoteState
  | paid : MintQuoteState
  | issued : MintQuoteState
  | pending : MintQuoteState
deriving DecidableEq

/-- Modelled from the spec (§3): melt-quote states. -/
inductive MeltQuoteState : Type where
  | unpaid : MeltQuoteState
  | pending : MeltQuoteState
  | paid : MeltQuoteState
  | unknown : MeltQuoteState
  | failed : MeltQuoteState
deriving DecidableEq

/-- Modelled from the spec (§3): proof states. -/
inductive ProofState : Type where
  | unspent : ProofState
  | pending : ProofState
  | spent : ProofState
  | reserved : ProofState
deriving DecidableEq

/-- Modelled from the spec (§3): a mint quote.  UUIDs and bolt11
request strings are opaque tokens. -/
structure MintQuote : Type where
  id : Nat
  request : Nat
  requestLookupId : Nat
  unit : CurrencyUnit
  amount : Nat
  state : MintQuoteState
  expiry : Nat
deriving DecidableEq

/-- Modelled from the spec (§3): a melt quote. -/
structure MeltQuote : Type where
  id : Nat
  request : Nat
  unit : CurrencyUnit
  amount : Nat
  feeReserve : Nat
  state : MeltQuoteState
  expiry : Nat
deriving DecidableEq

/-- Secrets: the code first tries to parse a proof secret as a
well-known structured secret (P2PK, HTLC) and otherwise treats it as a
plain secret; the parse outcome is modelled as the constructor, and the
black-box spending-condition checks (`verify_p2pk` / `verify_htlc`) as
a boolean carried by the structured variants. -/
inductive SecretData : Type where
  | plain : List Nat → SecretData
  | p2pkSecret : List Nat → Bool → SecretData
  | htlcSecret : List Nat → Bool → SecretData
deriving DecidableEq

/-- Byte serialization of a secret (tag-prefixed, hence injective). -/
def SecretData.toBytes : SecretData → List Nat
  | .plain d => 0 :: d
  | .p2pkSecret d _ => 1 :: d
  | .htlcSecret d _ => 2 :: d

/-- Modelled DHKE `hash_to_curve`: an injective encoding of the secret
bytes into a curve-point token. -/
def hashToCurve (bytes : List Nat) : Nat :=
  bytes.foldl (fun acc b => acc * (b + 2) + b + 1) 1

/-- Modelled DHKE scalar multiplication `k · P` as an injective pairing
of the scalar and point tokens (the code never relies on the group
structure, only on determinism of sign/verify). -/
def scalarMul (k point : Nat) : Nat := Nat.pair k point

/-- Modelled DHKE `verify_message`: checks `k · hash_to_curve(secret)
== C`. -/
def verifyMessage (k c : Nat) (secretBytes : List Nat) : Bool :=
  c = scalarMul k (hashToCurve secretBytes)

/-- Modelled DHKE `sign_message`: `C_ = k · B_`. -/
def signMessage (k blindedSecret : Nat) : Nat := scalarMul k blindedSecret

/-- Modelled from the spec (§3): a bearer proof. -/
structure ProofData : Type where
  amount : Nat
  keysetId : KeysetId
  secret : SecretData
  c : Nat
deriving DecidableEq

/-- Modelled from the spec (§3): a blind signature.  The DLEQ payload
is opaque. -/
structure BlindSignature : Type where
  amount : Nat
  keysetId : KeysetId
  c : Nat
  dleq : Option (Nat × Nat)
deriving DecidableEq

/-- Modelled from the spec (§3): a blinded message. -/
structure BlindedMessage : Type where
  amount : Nat
  keysetId : KeysetId
  blindedSecret : Nat
deriving DecidableEq

/-- Modelled from the spec (§4.4): a melt request carries the quote id
and the input proofs. -/
structure MeltBolt11Request : Type where
  quote : Nat
  inputs : List ProofData
deriving DecidableEq

/-- Modelled from the spec: `proofs_amount` sums the input amounts as
unsigned 64-bit integers, failing on overflow (surfaced by the mint as
`AmountOverflow`). -/
def MeltBolt11Request.proofsAmount (r : MeltBolt11Request) : Option Nat :=
  let total := (r.inputs.map (·.amount)).sum
  if total < 2 ^ 64 then some total else none

/-- Error cases of `cdk_common` relevant to the embedded operations
(§7 taxonomy). -/
inductive Err : Type where
  | unknownQuote : Err
  | unknownKeySet : Err
  | inactiveKeyset : Err
  | amountKey : Err
  | unsupportedUnit : Err
  | insufficientFunds : Err
  | tokenNotVerified : Err
  | requestAlreadyPaid : Err
  | amountOverflow : Err
  | p2pkConditionFailed : Err
  | htlcConditionFailed : Err
  | internal : Err
deriving DecidableEq

/-! ## MintMemoryDatabase (`cdk/src/cdk_database/mint_memory.rs`) -/

/-- Lockable record identifiers (`AnyId` in `mint_memory.rs`). -/
inductive AnyId : Type where
  | mintQuote : Nat → AnyId
  | meltQuote : Nat → AnyId
  | blindSignature : Nat → AnyId
deriving DecidableEq

/-- The record-kind maps of `MemoryStorage` in `mint_memory.rs`.  The
`mint_info` and `quote_ttl` cells are omitted: no verified claim
mentions them.  Keys: `[u8; 33]` compressed points and UUIDs are `Nat`
tokens. -/
structure MemoryStorage : Type where
  activeKeysets : Store CurrencyUnit KeysetId := Store.empty
  keysets : Store KeysetId MintKeySetInfo := Store.empty
  mintQuotes : Store Nat MintQuote := Store.empty
  meltQuotes : Store Nat MeltQuote := Store.empty
  proofs : Store Nat ProofData := Store.empty
  proofState : Store Nat ProofState := Store.empty
  quoteProofs : Store Nat (List Nat) := Store.empty
  blindedSignatures : Store Nat BlindSignature := Store.empty
  quoteSignatures : Store Nat (List BlindSignature) := Store.empty
  meltRequests : Store Nat (MeltBolt11Request × Nat) := Store.empty
deriving DecidableEq

/-- Everything-empty storage (`MemoryStorage::default()`). -/
def MemoryStorage.emptyStorage : MemoryStorage := {}

/-- The state of one `MintMemoryWriter` transaction plus the shared
parts it aliases through `Arc`: the canonical storage `inner`, the
per-transaction `changes`, the shared lock table of the
`AccessManager`, and the writer id. -/
structure MintMemoryWriter : Type where
  inner : MemoryStorage
  changes : MemoryStorage
  lockTable : Store AnyId Nat
  id : Nat
deriving DecidableEq

/-- `AccessManager::lock`: claim the resource if free, proceed if this
writer already holds it, otherwise spin until released.  In this
sequential embedding a blocked acquisition is `none`. -/
def AccessManager.lock (table : Store AnyId Nat) (resourceId : AnyId)
    (writerId : Nat) : Option (Store AnyId Nat) :=
  match table.lookup resourceId with
  | none => some (table.insert resourceId writerId)
  | some holder => if holder = writerId then some table else none

/-- `AccessManager::release`: drop every lock belonging to this writer
id (`retain(|_, v| *v != writer_id)`). -/
def AccessManager.release (table : Store AnyId Nat) (writerId : Nat) :
    Store AnyId Nat :=
  table.retainValues (fun holder => holder ≠ writerId)

/-- `MintMemoryDatabase::begin_transaction`: a fresh writer with empty
change set and the next writer id. -/
def MintMemoryDatabase.beginTransaction (inner : MemoryStorage)
    (lockTable : Store AnyId Nat) (writerIndex : Nat) : MintMemoryWriter :=
  { inner := inner, changes := MemoryStorage.emptyStorage,
    lockTable := lockTable, id := writerIndex }

/-- `MintMemoryWriter::add_mint_quote`: locks the quote id, then stages
the quote in the per-transaction change set. -/
def MintMemoryWriter.addMintQuote (w : MintMemoryWriter) (q : MintQuote) :
    Option MintMemoryWriter :=
  (AccessManager.lock w.lockTable (AnyId.mintQuote q.id) w.id).map
    (fun table =>
      { w with lockTable := table,
               changes := { w.changes with
                 mintQuotes := w.changes.mintQuotes.insert q.id q } })

/-- `MintMemoryWriter::get_mint_quote`: locks the quote id, then reads
the change set first and falls back to the canonical store. -/
def MintMemoryWriter.getMintQuote (w : MintMemoryWriter) (quoteId : Nat) :
    Option (MintMemoryWriter × Option MintQuote) :=
  (AccessManager.lock w.lockTable (AnyId.mintQuote quoteId) w.id).map
    (fun table =>
      ({ w with lockTable := table },
       match w.changes.mintQuotes.lookup quoteId with
       | some q => some q
       | none => w.inner.mintQuotes.lookup quoteId))

/-- `MintMemoryWriter::update_mint_quote_state`: reads through
`get_mint_quote`, then stages the updated quote in the change set and
returns the previous state. -/
def MintMemoryWriter.updateMintQuoteState (w : MintMemoryWriter)
    (quoteId : Nat) (state : MintQuoteState) :
    Option (MintMemoryWriter × Except Err MintQuoteState) :=
  (w.getMintQuote quoteId).map
    (fun res =>
      match res.2 with
      | none => (res.1, Except.error Err.unknownQuote)
      | some q =>
          ({ res.1 with changes := { res.1.changes with
               mintQuotes := res.1.changes.mintQuotes.insert quoteId
                 { q with state := state } } },
           Except.ok q.state))

/-- `MintMemoryWriter::add_proofs`: inserts each proof keyed by
`hash_to_curve(secret)` directly into the canonical `inner.proofs` map
(not the change set), and the quote-to-ys list directly into
`inner.quote_proofs`. -/
def MintMemoryWriter.addProofs (w : MintMemoryWriter)
    (proofs : List ProofData) (quoteId : Option Nat) : MintMemoryWriter :=
  let ys := proofs.map (fun p => hashToCurve p.secret.toBytes)
  let newProofs := (proofs.map
      (fun p => (hashToCurve p.secret.toBytes, p))).foldl
    (fun acc yp => acc.insert yp.1 yp.2) w.inner.proofs
  let withProofs := { w with inner := { w.inner with proofs := newProofs } }
  match quoteId with
  | none => withProofs
  | some qid =>
      { withProofs with inner := { withProofs.inner with
          quoteProofs := withProofs.inner.quoteProofs.insert qid ys } }

/-- `MintMemoryWriter::update_proofs_states`: writes every `y` state
directly into the canonical `inner.proof_state` map and returns the
previous states. -/
def MintMemoryWriter.updateProofsStates (w : MintMemoryWriter)
    (ys : List Nat) (state : ProofState) :
    MintMemoryWriter × List (Option ProofState) :=
  let states := ys.map (fun y => w.inner.proofState.lookup y)
  let newStates := ys.foldl (fun acc y => acc.insert y state)
    w.inner.proofState
  ({ w with inner := { w.inner with proofState := newStates } }, states)

/-- `MintMemoryWriter::update_melt_quote_state`: reads and writes the
canonical `inner.melt_quotes` map directly. -/
def MintMemoryWriter.updateMeltQuoteState (w : MintMemoryWriter)
    (quoteId : Nat) (state : MeltQuoteState) :
    MintMemoryWriter × Except Err MeltQuoteState :=
  match w.inner.meltQuotes.lookup quoteId with
  | none => (w, Except.error Err.unknownQuote)
  | some q =>
      ({ w with inner := { w.inner with
           meltQuotes := w.inner.meltQuotes.insert quoteId
             { q with state := state } } },
       Except.ok q.state)

/-- `MintMemoryWriter::add_blind_signatures`: stages the per-message
signatures in the change set, but writes the quote-signature list
directly into the canonical `inner.quote_signatures` map. -/
def MintMemoryWriter.addBlindSignatures (w : MintMemoryWriter)
    (blindedMessages : List Nat) (blindSignatures : List BlindSignature)
    (quoteId : Option Nat) : MintMemoryWriter :=
  let staged := (blindedMessages.zip blindSignatures).foldl
    (fun acc ms => acc.insert ms.1 ms.2) w.changes.blindedSignatures
  let w1 := { w with changes := { w.changes with
    blindedSignatures := staged } }
  match quoteId with
  | none => w1
  | some qid =>
      { w1 with inner := { w1.inner with
          quoteSignatures := w1.inner.quoteSignatures.insert qid
            blindSignatures } }

/-- Outcome of consuming a writer: `Ok(())`, a database error, or a
Rust panic (the `todo!()` macro unwinds). -/
inductive CommitOutcome : Type where
  | ok : CommitOutcome
  | panicked : CommitOutcome
deriving DecidableEq

/-- Result of `commit`/`rollback`: the canonical storage and lock table
as observable afterwards through the shared `Arc`s, plus the outcome. -/
structure WriterExit : Type where
  inner : MemoryStorage
  lockTable : Store AnyId Nat
  outcome : CommitOutcome
deriving DecidableEq

/-- `MintMemoryWriter::commit`: drains every change-set map into the
canonical store (the `merge!` macro, in source order), releases this
writer's locks, and then hits `todo!()`, which panics instead of
returning `Ok(())`. -/
def MintMemoryWriter.commit (w : MintMemoryWriter) : WriterExit :=
  let merged : MemoryStorage :=
    { activeKeysets := w.inner.activeKeysets,
      keysets := w.inner.keysets.drainInto w.changes.keysets,
      mintQuotes := w.inner.mintQuotes.drainInto w.changes.mintQuotes,
      meltQuotes := w.inner.meltQuotes.drainInto w.changes.meltQuotes,
      proofs := w.inner.proofs.drainInto w.changes.proofs,
      proofState := w.inner.proofState,
      blindedSignatures :=
        w.inner.blindedSignatures.drainInto w.changes.blindedSignatures,
      quoteProofs := w.inner.quoteProofs.drainInto w.changes.quoteProofs,
      quoteSignatures :=
        w.inner.quoteSignatures.drainInto w.changes.quoteSignatures,
      meltRequests := w.inner.meltRequests.drainInto w.changes.meltRequests }
  { inner := merged,
    lockTable := AccessManager.release w.lockTable w.id,
    outcome := CommitOutcome.panicked }

/-- `MintMemoryWriter::rollback`: releases this writer's locks and
returns `Ok(())`; the change set is dropped, but any writes the writer
made directly to `inner` remain. -/
def MintMemoryWriter.rollback (w : MintMemoryWriter) : WriterExit :=
  { inner := w.inner,
    lockTable := AccessManager.release w.lockTable w.id,
    outcome := CommitOutcome.ok }

/-! Non-transactional reader API of `MintMemoryDatabase`. -/

/-- `MintMemoryDatabase::get_proofs_by_ys`: one lookup per requested
`y`, in request order. -/
def MintMemoryDatabase.getProofsByYs (s : MemoryStorage) (ys : List Nat) :
    List (Option ProofData) :=
  ys.map (fun y => s.proofs.lookup y)

/-- `MintMemoryDatabase::get_proofs_states`: one lookup per requested
`y`, in request order. -/
def MintMemoryDatabase.getProofsStates (s : MemoryStorage) (ys : List Nat) :
    List (Option ProofState) :=
  ys.map (fun y => s.proofState.lookup y)

/-- `MintMemoryDatabase::get_blind_signatures`: one lookup per
requested blinded-message key, in request order (the `access` wait is
modelled separately by the event-trace embedding below). -/
def MintMemoryDatabase.getBlindSignatures (s : MemoryStorage)
    (blindedMessages : List Nat) : List (Option BlindSignature) :=
  blindedMessages.map (fun m => s.blindedSignatures.lookup m)

/-- `MintMemoryDatabase::get_mint_quotes`: all quotes in map order. -/
def MintMemoryDatabase.getMintQuotes (s : MemoryStorage) : List MintQuote :=
  s.mintQuotes.values

/-- `MintMemoryDatabase::get_mint_quote_by_request`: filters all quotes
by `request` and takes the first. -/
def MintMemoryDatabase.getMintQuoteByRequest (s : MemoryStorage)
    (request : Nat) : Option MintQuote :=
  ((MintMemoryDatabase.getMintQuotes s).filter
    (fun q => q.request = request)).head?

/-- `MintMemoryDatabase::add_keyset_info`: insert keyed by keyset id. -/
def MintMemoryDatabase.addKeysetInfo (s : MemoryStorage)
    (keyset : MintKeySetInfo) : MemoryStorage :=
  { s with keysets := s.keysets.insert keyset.id keyset }

/-- `MintMemoryDatabase::set_active_keyset`: insert keyed by unit. -/
def MintMemoryDatabase.setActiveKeyset (s : MemoryStorage)
    (unit : CurrencyUnit) (id : KeysetId) : MemoryStorage :=
  { s with activeKeysets := s.activeKeysets.insert unit id }

/-- `MintMemoryDatabase::get_keyset_infos`: all stored infos. -/
def MintMemoryDatabase.getKeysetInfos (s : MemoryStorage) :
    List MintKeySetInfo :=
  s.keysets.values

/-! Event-trace embedding of the non-transactional readers that touch
lockable records.  Each reader is given alongside the list of
`AccessManager` waits and record reads it performs, in program order,
taken from `mint_memory.rs`. -/

/-- Observable lock-related events of a reader: a shared `access` wait
on a record id, or a read of that record from the canonical store. -/
inductive AccessEvent : Type where
  | accessWait : AnyId → AccessEvent
  | readRecord : AnyId → AccessEvent
deriving DecidableEq

/-- `MintMemoryDatabase::get_mint_quote` with its event trace: it first
waits on `access(MintQuote(id))` and only then reads the record. -/
def MintMemoryDatabase.getMintQuoteTraced (s : MemoryStorage)
    (quoteId : Nat) : Option MintQuote × List AccessEvent :=
  (s.mintQuotes.lookup quoteId,
   [AccessEvent.accessWait (AnyId.mintQuote quoteId),
    AccessEvent.readRecord (AnyId.mintQuote quoteId)])

/-- `MintMemoryDatabase::get_melt_quote` with its event trace: it reads
the record immediately, performing no `access` wait at all. -/
def MintMemoryDatabase.getMeltQuoteTraced (s : MemoryStorage)
    (quoteId : Nat) : Option MeltQuote × List AccessEvent :=
  (s.meltQuotes.lookup quoteId,
   [AccessEvent.readRecord (AnyId.meltQuote quoteId)])

/-- `MintMemoryDatabase::get_blind_signatures` with its event trace:
for each requested key the signature is read first and the `access`
wait happens only afterwards. -/
def MintMemoryDatabase.getBlindSignaturesTraced (s : MemoryStorage)
    (blindedMessages : List Nat) :
    List (Option BlindSignature) × List AccessEvent :=
  (blindedMessages.map (fun m => s.blindedSignatures.lookup m),
   blindedMessages.flatMap (fun m =>
     [AccessEvent.readRecord (AnyId.blindSignature m),
      AccessEvent.accessWait (AnyId.blindSignature m)]))

/-- Checks that every `readRecord` in the trace is preceded by an
`accessWait` on the same record id. -/
def waitsBeforeEveryRead (accessed : List AnyId) :
    List AccessEvent → Bool
  | [] => true
  | AccessEvent.accessWait i :: rest =>
      waitsBeforeEveryRead (i :: accessed) rest
  | AccessEvent.readRecord i :: rest =>
      if i ∈ accessed then waitsBeforeEveryRead accessed rest else false

/-- Holds of a trace that contains no `accessWait` event at all. -/
def neverWaits (trace : List AccessEvent) : Bool :=
  trace.all (fun e =>
    match e with
    | AccessEvent.accessWait _ => false
    | AccessEvent.readRecord _ => true)

/-! ## Mint operations (`cdk/src/mint/mod.rs`) -/

/-- Modelled from the spec (§4.5): a restore request is a list of
blinded messages. -/
structure RestoreRequest : Type where
  outputs : List BlindedMessage
deriving DecidableEq

/-- Modelled from the spec (§4.5): the restore response echoes the
matched outputs and their signatures (also under the legacy `promises`
field, as in the source). -/
structure RestoreResponse : Type where
  outputs : List BlindedMessage
  signatures : List BlindSignature
  promises : Option (List BlindSignature)
deriving DecidableEq

/-- `Mint::restore`: fetches the stored signature slot for every
requested blinded message, asserts one slot per request (a panic is
modelled as `none`), and keeps exactly the pairs whose slot is
populated, in request order. -/
def Mint.restore (s : MemoryStorage) (request : RestoreRequest) :
    Option RestoreResponse :=
  let blindedMessage := request.outputs.map (·.blindedSecret)
  let blindedSignatures :=
    MintMemoryDatabase.getBlindSignatures s blindedMessage
  if blindedSignatures.length = request.outputs.length then
    let collected := (request.outputs.zip blindedSignatures).foldr
      (fun p acc =>
        match p.2 with
        | some sg => (p.1 :: acc.1, sg :: acc.2)
        | none => acc)
      ([], [])
    some { outputs := collected.1, signatures := collected.2,
           promises := some collected.2 }
  else
    none

/-- Modelled from the spec: `update_mint_quote` records the updated
quote in the store (the defining `mint_nut04.rs` module is not among
the sources; §4.4 says the mint "sets that mint-quote to `Paid`"). -/
def Mint.updateMintQuote (s : MemoryStorage) (q : MintQuote) :
    MemoryStorage :=
  { s with mintQuotes := s.mintQuotes.insert q.id q }

/-- Result of a successful `handle_internal_melt_mint`: the updated
store, the settled amount (`None` when the melt is not internal), and
the list of `pay_invoice` calls issued to the external backend (the
function makes none). -/
structure InternalMeltOutcome : Type where
  storage : MemoryStorage
  settled : Option Nat
  lnPayments : List Nat
deriving DecidableEq

/-- `Mint::handle_internal_melt_mint` (`mint/mod.rs`): looks up a mint
quote with the melt quote's request; absent means not internal;
`Issued`/`Paid` is rejected as already paid; the input sum must reach
the mint quote's amount; otherwise the mint quote is set to `Paid` and
the melt amount returned, with no external payment. -/
def Mint.handleInternalMeltMint (s : MemoryStorage) (meltQuote : MeltQuote)
    (meltRequest : MeltBolt11Request) : Except Err InternalMeltOutcome :=
  match MintMemoryDatabase.getMintQuoteByRequest s meltQuote.request with
  | none => Except.ok { storage := s, settled := none, lnPayments := [] }
  | some mintQuote =>
      if mintQuote.state = MintQuoteState.issued ∨
          mintQuote.state = MintQuoteState.paid then
        Except.error Err.requestAlreadyPaid
      else
        match meltRequest.proofsAmount with
        | none => Except.error Err.amountOverflow
        | some inputsAmount =>
            if inputsAmount < mintQuote.amount then
              Except.error Err.insufficientFunds
            else
              Except.ok
                { storage := Mint.updateMintQuote s
                    { mintQuote with state := MintQuoteState.paid },
                  settled := some meltQuote.amount,
                  lnPayments := [] }

end Cdk
namespace Cdk

/-! ## MemorySignatory (`cdk-signatory/src/lib.rs`) -/

/-- `derivation_path_from_unit`: `m/0'/unit_index'/keyset_index'`,
`None` for units without a derivation index. -/
def derivationPathFromUnit (unit : CurrencyUnit) (index : Nat) :
    Option DerivPath :=
  unit.derivationIndex.map (fun unitIndex => [0, unitIndex, index])

/-- Modelled BIP32 derivation: the secret-key token of the keypair for
amount `2^i` in the keyset derived at `path` (injective in both). -/
def derivedSecretKey (path : DerivPath) (i : Nat) : Nat :=
  Nat.pair (hashToCurve path) i

/-- Keypair of a keyset entry. -/
structure MintKeyPair : Type where
  secretKey : Nat
  publicKey : Nat
deriving DecidableEq

/-- `MintKeySet::generate_from_xpriv` applied to a stored info: one
keypair per amount `2^i`, `i < max_order`, derived at the info's
path. -/
def generateKeysetKeys (path : DerivPath) (maxOrder : Nat) :
    Store Nat MintKeyPair :=
  (List.range maxOrder).map
    (fun i => (2 ^ i,
      { secretKey := derivedSecretKey path i,
        publicKey := derivedSecretKey path i + 1 }))

/-- `MemorySignatory::get_keypair_for_amount`: loads the keyset info,
requires the keyset to be the currently active one for its unit
(`InactiveKeyset` otherwise), then selects the keypair for the amount
(`AmountKey` if unsupported).  The in-process keyset cache is elided:
`load_and_get_keyset` fills it with exactly
`generate_from_xpriv(info)`, which is recomputed here. -/
def MemorySignatory.getKeypairForAmount (s : MemoryStorage)
    (keysetId : KeysetId) (amount : Nat) : Except Err MintKeyPair :=
  match s.keysets.lookup keysetId with
  | none => Except.error Err.unknownKeySet
  | some info =>
      match s.activeKeysets.lookup info.unit with
      | none => Except.error Err.inactiveKeyset
      | some active =>
          if info.id ≠ active then Except.error Err.inactiveKeyset
          else
            match (generateKeysetKeys info.derivationPath
                info.maxOrder).lookup amount with
            | some keyPair => Except.ok keyPair
            | none => Except.error Err.amountKey

/-- `MemorySignatory::verify_proof`: evaluates the spending condition
of a structured secret first, then fetches the keypair through
`get_keypair_for_amount` and checks the DHKE equation. -/
def MemorySignatory.verifyProof (s : MemoryStorage) (proof : ProofData) :
    Except Err Unit :=
  let condition : Except Err Unit :=
    match proof.secret with
    | SecretData.plain _ => Except.ok ()
    | SecretData.p2pkSecret _ condOk =>
        if condOk then Except.ok () else Except.error Err.p2pkConditionFailed
    | SecretData.htlcSecret _ condOk =>
        if condOk then Except.ok () else Except.error Err.htlcConditionFailed
  match condition with
  | Except.error e => Except.error e
  | Except.ok _ =>
      match MemorySignatory.getKeypairForAmount s proof.keysetId
          proof.amount with
      | Except.error e => Except.error e
      | Except.ok keyPair =>
          if verifyMessage keyPair.secretKey proof.c proof.secret.toBytes
          then Except.ok ()
          else Except.error Err.tokenNotVerified

/-- Arguments of one `rotate_keyset` call. -/
structure RotateCall : Type where
  unit : CurrencyUnit
  derivationPathIndex : Nat
  maxOrder : Nat
  inputFeePpk : Nat
  customPaths : Store CurrencyUnit DerivPath
deriving DecidableEq

/-- `MemorySignatory::rotate_keyset`: resolves the derivation path
(custom first, derived otherwise), creates the new keyset info marked
active, persists it, and makes it the unit's active keyset. -/
def MemorySignatory.rotateKeyset (s : MemoryStorage) (c : RotateCall) :
    Except Err (MemoryStorage × MintKeySetInfo) :=
  let resolved : Option DerivPath :=
    match c.customPaths.lookup c.unit with
    | some path => some path
    | none => derivationPathFromUnit c.unit c.derivationPathIndex
  match resolved with
  | none => Except.error Err.unsupportedUnit
  | some path =>
      let info : MintKeySetInfo :=
        { id := { path := path, maxOrder := c.maxOrder }, unit := c.unit,
          active := true, derivationPath := path,
          derivationPathIndex := some c.derivationPathIndex,
          maxOrder := c.maxOrder, inputFeePpk := c.inputFeePpk }
      Except.ok
        (MintMemoryDatabase.setActiveKeyset
          (MintMemoryDatabase.addKeysetInfo s info) c.unit info.id, info)

/-- Folds a sequence of `rotate_keyset` calls over the store; a failed
call leaves the store unchanged. -/
def runRotations (s : MemoryStorage) : List RotateCall → MemoryStorage
  | [] => s
  | c :: rest =>
      match MemorySignatory.rotateKeyset s c with
      | Except.ok r => runRotations r.1 rest
      | Except.error _ => runRotations s rest

/-- One entry of the `keysets()` response (`KeySetInfo` of nut02). -/
structure KeySetInfoResponse : Type where
  id : KeysetId
  unit : CurrencyUnit
  active : Bool
  inputFeePpk : Nat
deriving DecidableEq

/-- `MemorySignatory::keysets`: every stored info, stamped active iff
its id belongs to the set of active ids of any unit. -/
def MemorySignatory.keysetsResponse (s : MemoryStorage) :
    List KeySetInfoResponse :=
  let activeIds := s.activeKeysets.values
  (MintMemoryDatabase.getKeysetInfos s).map
    (fun k =>
      { id := k.id, unit := k.unit, active := decide (k.id ∈ activeIds),
        inputFeePpk := k.inputFeePpk })

/-- Boolean check that no two response entries of the same unit are
both marked active. -/
def pairwiseNoDoubleActive : List KeySetInfoResponse → Bool
  | [] => true
  | a :: rest =>
      (rest.all (fun b =>
        !(a.active && b.active && decide (a.unit = b.unit)))) &&
        pairwiseNoDoubleActive rest

/-- Partial inverse of `CurrencyUnit.derivationIndex`. -/
def unitFromIndex : Nat → Option CurrencyUnit
  | 0 => some CurrencyUnit.sat
  | 1 => some CurrencyUnit.msat
  | 2 => some CurrencyUnit.usd
  | 3 => some CurrencyUnit.eur
  | _ => none

/-- The unit a keyset id belongs to when its path has the default
`m/0'/unit_index'/keyset_index'` shape. -/
def unitOfId (i : KeysetId) : Option CurrencyUnit :=
  match i.path with
  | [z, unitIndex, _] => if z = 0 then unitFromIndex unitIndex else none
  | _ => none

/-- Invariant linking the keyset-info map and the active-keyset map
after default-path rotations. -/
structure SigInv (s : MemoryStorage) : Prop where
  keysNodup : s.keysets.NodupKeys
  activeNodup : s.activeKeysets.NodupKeys
  keysetsUnit : ∀ p ∈ s.keysets, p.2.id = p.1 ∧ unitOfId p.1 = some p.2.unit
  activeUnit : ∀ q ∈ s.activeKeysets, unitOfId q.2 = some q.1
  activeInKeysets :
    ∀ q ∈ s.activeKeysets, ∃ info, (q.2, info) ∈ s.keysets

/-! Cold-start reconciliation (`MemorySignatory::new`). -/

/-- Rust ordering of `Option<u32>`: `None` is below every `Some`. -/
def optIndexLt : Option Nat → Option Nat → Bool
  | none, none => false
  | none, some _ => true
  | some _, none => false
  | some a, some b => decide (a < b)

/-- Stable insertion into a list sorted descending by
`derivation_path_index`. -/
def insertByIndexDesc (x : MintKeySetInfo) :
    List MintKeySetInfo → List MintKeySetInfo
  | [] => [x]
  | y :: ys =>
      if optIndexLt y.derivationPathIndex x.derivationPathIndex then
        x :: y :: ys
      else
        y :: insertByIndexDesc x ys

/-- `keysets.sort_by(|a, b| b.derivation_path_index.cmp(&a.…))`. -/
def sortByIndexDesc : List MintKeySetInfo → List MintKeySetInfo
  | [] => []
  | x :: xs => insertByIndexDesc x (sortByIndexDesc xs)

/-- Appends an info to its unit's group (`entry(..).or_default().push`). -/
def pushGroup : List (CurrencyUnit × List MintKeySetInfo) →
    MintKeySetInfo → List (CurrencyUnit × List MintKeySetInfo)
  | [], k => [(k.unit, [k])]
  | (u, g) :: rest, k =>
      if u = k.unit then (u, g ++ [k]) :: rest
      else (u, g) :: pushGroup rest k

/-- The `keysets_by_unit` fold of `MemorySignatory::new`. -/
def groupByUnit (infos : List MintKeySetInfo) :
    List (CurrencyUnit × List MintKeySetInfo) :=
  infos.foldl pushGroup []

/-- Creates a keyset at the given index for the unit (custom path
first, derived otherwise), persists it and makes it active; shared by
both keyset-creating branches of `MemorySignatory::new`. -/
def createAndActivate (s : MemoryStorage) (unit : CurrencyUnit)
    (index maxOrder inputFeePpk : Nat)
    (customPaths : Store CurrencyUnit DerivPath) :
    Except Err MemoryStorage :=
  let resolved : Option DerivPath :=
    match customPaths.lookup unit with
    | some path => some path
    | none => derivationPathFromUnit unit index
  match resolved with
  | none => Except.error Err.unsupportedUnit
  | some path =>
      let info : MintKeySetInfo :=
        { id := { path := path, maxOrder := maxOrder }, unit := unit,
          active := true, derivationPath := path,
          derivationPathIndex := some index, maxOrder := maxOrder,
          inputFeePpk := inputFeePpk }
      Except.ok
        (MintMemoryDatabase.setActiveKeyset
          (MintMemoryDatabase.addKeysetInfo s info) unit info.id)

/-- The per-unit reconciliation loop of `MemorySignatory::new`: for a
stored unit with a configured `(fee_ppk, max_order)`, either reactivate
the highest-index keyset when it matches the config (without recording
the unit in `active_keyset_units` — the `continue` skips the push), or
create the next keyset and record the unit. -/
def reconcileUnits (supportedUnits : Store CurrencyUnit (Nat × Nat))
    (customPaths : Store CurrencyUnit DerivPath) :
    List (CurrencyUnit × List MintKeySetInfo) → MemoryStorage →
    List CurrencyUnit → Except Err (MemoryStorage × List CurrencyUnit)
  | [], s, pushed => Except.ok (s, pushed)
  | (unit, ks) :: rest, s, pushed =>
      match sortByIndexDesc ks with
      | [] => reconcileUnits supportedUnits customPaths rest s pushed
      | highest :: sortedRest =>
          match supportedUnits.lookup unit with
          | none => reconcileUnits supportedUnits customPaths rest s pushed
          | some cfg =>
              let filtered := (highest :: sortedRest).filter
                (fun k => k.derivationPathIndex.isSome)
              if filtered.isEmpty then
                match createAndActivate s unit 1 cfg.2 cfg.1 customPaths with
                | Except.error e => Except.error e
                | Except.ok s1 =>
                    reconcileUnits supportedUnits customPaths rest s1
                      (pushed ++ [unit])
              else if highest.inputFeePpk = cfg.1 ∧
                  highest.maxOrder = cfg.2 then
                reconcileUnits supportedUnits customPaths rest
                  (MintMemoryDatabase.setActiveKeyset
                    (MintMemoryDatabase.addKeysetInfo s
                      { highest with active := true })
                    unit highest.id)
                  pushed
              else
                match createAndActivate s unit
                    (highest.derivationPathIndex.getD 0 + 1) cfg.2 cfg.1
                    customPaths with
                | Except.error e => Except.error e
                | Except.ok s1 =>
                    reconcileUnits supportedUnits customPaths rest s1
                      (pushed ++ [unit])

/-- The closing sweep of `MemorySignatory::new`: every supported unit
not recorded in `active_keyset_units` gets a fresh keyset at index
`0`, persisted and activated. -/
def sweepSupported (customPaths : Store CurrencyUnit DerivPath) :
    List (CurrencyUnit × Nat × Nat) → List CurrencyUnit →
    MemoryStorage → Except Err MemoryStorage
  | [], _, s => Except.ok s
  | (unit, cfg) :: rest, pushed, s =>
      if unit ∈ pushed then sweepSupported customPaths rest pushed s
      else
        match createAndActivate s unit 0 cfg.2 cfg.1 customPaths with
        | Except.error e => Except.error e
        | Except.ok s1 => sweepSupported customPaths rest pushed s1

/-- `MemorySignatory::new`: snapshot the stored infos, mark them all
inactive, reconcile per unit, then sweep the supported units that were
not recorded as handled. -/
def memorySignatoryNew (store : MemoryStorage)
    (supportedUnits : Store CurrencyUnit (Nat × Nat))
    (customPaths : Store CurrencyUnit DerivPath) :
    Except Err MemoryStorage :=
  let infos := MintMemoryDatabase.getKeysetInfos store
  if infos.isEmpty then
    sweepSupported customPaths supportedUnits [] store
  else
    let store1 := infos.foldl
      (fun s k => MintMemoryDatabase.addKeysetInfo s { k with active := false })
      store
    match reconcileUnits supportedUnits customPaths (groupByUnit infos)
        store1 [] with
    | Except.error e => Except.error e
    | Except.ok (store2, pushed) =>
        sweepSupported customPaths supportedUnits pushed store2

/-! ## Witness wire codec (`cdk-signatory/src/proto/mod.rs`) -/

/-- Modelled from the spec (§6): `cdk_common::Witness`, a tagged union
of P2PK (signature list) and HTLC (preimage plus optional signature
list); signature strings and preimages are opaque tokens. -/
inductive CommonWitness : Type where
  | p2pkWitness : List Nat → CommonWitness
  | htlcWitness : Nat → Option (List Nat) → CommonWitness
deriving DecidableEq

/-- The protobuf `witness::WitnessType` payload. -/
inductive WireWitnessType : Type where
  | p2pkWitness : List Nat → WireWitnessType
  | htlcWitness : Nat → List Nat → WireWitnessType
deriving DecidableEq

/-- The protobuf `Witness` message with its optional payload. -/
structure WireWitness : Type where
  witnessType : Option WireWitnessType
deriving DecidableEq

/-- `From<cdk_common::Witness> for Witness`: HTLC's absent signature
list is sent as the empty list (`unwrap_or_default`). -/
def witnessToWire : CommonWitness → WireWitness
  | CommonWitness.p2pkWitness signatures =>
      { witnessType := some (WireWitnessType.p2pkWitness signatures) }
  | CommonWitness.htlcWitness preimage signatures =>
      { witnessType := some (WireWitnessType.htlcWitness preimage
          (signatures.getD [])) }

/-- `TryInto<cdk_common::Witness> for Witness`: an empty HTLC signature
list decodes to `None`; a missing payload is an invalid-argument
error. -/
def witnessFromWire : WireWitness → Except Err CommonWitness
  | { witnessType := some (WireWitnessType.p2pkWitness signatures) } =>
      Except.ok (CommonWitness.p2pkWitness signatures)
  | { witnessType := some (WireWitnessType.htlcWitness preimage
        signatures) } =>
      Except.ok (CommonWitness.htlcWitness preimage
        (if signatures.isEmpty then none else some signatures))
  | { witnessType := none } => Except.error Err.internal

/-- Witnesses whose wire encoding is lossless: every P2PK witness, and
every HTLC witness whose signature list is absent or non-empty. -/
def wireLossless : CommonWitness → Prop
  | CommonWitness.p2pkWitness _ => True
  | CommonWitness.htlcWitness _ none => True
  | CommonWitness.htlcWitness _ (some l) => l ≠ []

end Cdk

namespace Cdk.Store

variable {K V : Type} [DecidableEq K]

theorem lookup_insert_self (m : Store K V) (k : K) (v : V) :
    (m.insert k v).lookup k = some v := by
  induction m with
  | nil => simp [insert, lookup]
  | cons hd tl ih =>
      by_cases h : hd.1 = k
      · simp [insert, lookup, h]
      · simpa [insert, lookup, h] using ih

theorem lookup_insert_ne (m : Store K V) (k k' : K) (v : V) (h : k ≠ k') :
    (m.insert k v).lookup k' = m.lookup k' := by
  have h' : ¬ (k' = k) := fun e => h e.symm
  induction m with
  | nil => simp [insert, lookup, h]
  | cons hd tl ih =>
      by_cases h1 : hd.1 = k
      · subst h1
        simp [insert, lookup, h', h]
      · by_cases h2 : hd.1 = k'
        · simp [insert, lookup, h1, h2, h']
        · simpa [insert, lookup, h1, h2] using ih

theorem mem_insert (m : Store K V) (k : K) (v : V) {p : K × V}
    (hp : p ∈ m.insert k v) : p = (k, v) ∨ p ∈ m := by
  induction m with
  | nil => simpa [insert] using hp
  | cons hd tl ih =>
      by_cases h : hd.1 = k
      · simp only [insert, h, if_true] at hp
        rcases List.mem_cons.mp hp with h1 | h1
        · exact Or.inl h1
        · exact Or.inr (List.mem_cons_of_mem _ h1)
      · simp only [insert, h, if_false] at hp
        rcases List.mem_cons.mp hp with h1 | h1
        · exact Or.inr (List.mem_cons.mpr (Or.inl h1))
        · rcases ih h1 with h2 | h2
          · exact Or.inl h2
          · exact Or.inr (List.mem_cons_of_mem _ h2)

theorem self_mem_insert (m : Store K V) (k : K) (v : V) :
    (k, v) ∈ m.insert k v := by
  induction m with
  | nil => simp [insert]
  | cons hd tl ih =>
      by_cases h : hd.1 = k
      · simp [insert, h]
      · simp only [insert, h, if_false]
        exact List.mem_cons_of_mem _ ih

theorem keys_insert_subset (m : Store K V) (k : K) (v : V) {a : K}
    (ha : a ∈ (m.insert k v).keys) : a ∈ m.keys ∨ a = k := by
  induction m with
  | nil => simpa [insert, keys] using ha
  | cons hd tl ih =>
      by_cases h : hd.1 = k
      · simp only [insert, h, if_true, keys, List.map_cons, List.mem_cons] at ha
        rcases ha with h1 | h1
        · exact Or.inr h1
        · exact Or.inl (by simp [keys, List.mem_cons]; right; simpa [keys] using h1)
      · simp only [insert, h, if_false, keys, List.map_cons, List.mem_cons] at ha
        rcases ha with h1 | h1
        · exact Or.inl (by simp [keys, h1])
        · rcases ih (by simpa [keys] using h1) with h2 | h2
          · exact Or.inl (by simp [keys, List.mem_cons]; right; simpa [keys] using h2)
          · exact Or.inr h2

theorem nodupKeys_insert (m : Store K V) (k : K) (v : V)
    (h : m.NodupKeys) : (m.insert k v).NodupKeys := by
  induction m with
  | nil => simp [insert, NodupKeys, keys]
  | cons hd tl ih =>
      simp only [NodupKeys, keys, List.map_cons, List.nodup_cons] at h
      by_cases h1 : hd.1 = k
      · subst h1
        simpa [insert, NodupKeys, keys, List.nodup_cons] using h
      · have htl := ih h.2
        simp only [insert, h1, if_false, NodupKeys, keys, List.map_cons,
          List.nodup_cons]
        refine ⟨fun hmem => ?_, htl⟩
        rcases keys_insert_subset tl k v hmem with h2 | h2
        · exact h.1 h2
        · exact h1 h2

theorem lookup_eq_some_of_mem (m : Store K V) (h : m.NodupKeys) {k : K}
    {v : V} (hm : (k, v) ∈ m) : m.lookup k = some v := by
  induction m with
  | nil => cases hm
  | cons hd tl ih =>
      simp only [NodupKeys, keys, List.map_cons, List.nodup_cons] at h
      rcases List.mem_cons.mp hm with h1 | h1
      · subst h1
        simp [lookup]
      · have hne : hd.1 ≠ k := by
          intro hq
          exact h.1 (hq ▸ (List.mem_map.mpr ⟨(k, v), h1, rfl⟩))
        simpa [lookup, hne] using ih h.2 h1

theorem mem_of_lookup_eq_some {m : Store K V} {k : K} {v : V}
    (h : m.lookup k = some v) : (k, v) ∈ m := by
  induction m with
  | nil => simp [lookup] at h
  | cons hd tl ih =>
      by_cases h1 : hd.1 = k
      · simp only [lookup, h1, if_true, Option.some.injEq] at h
        exact List.mem_cons.mpr (Or.inl (by cases hd; simp_all))
      · simp only [lookup, h1, if_false] at h
        exact List.mem_cons_of_mem _ (ih h)

theorem mem_values_iff (m : Store K V) (v : V) :
    v ∈ m.values ↔ ∃ k, (k, v) ∈ m := by
  constructor
  · intro h
    rcases List.mem_map.mp h with ⟨kv, hkv, hv⟩
    exact ⟨kv.1, by cases kv; simp_all⟩
  · intro ⟨k, hk⟩
    exact List.mem_map.mpr ⟨(k, v), hk, rfl⟩

end Cdk.Store
namespace Cdk

/-! ## Helper lemmas shared by the claim theorems -/

theorem getBlindSignatures_length (s : MemoryStorage)
    (blindedMessages : List Nat) :
    (MintMemoryDatabase.getBlindSignatures s blindedMessages).length =
      blindedMessages.length := by
  simp [MintMemoryDatabase.getBlindSignatures]

theorem getBlindSignatures_get? (s : MemoryStorage)
    (blindedMessages : List Nat) (i : Nat) :
    (MintMemoryDatabase.getBlindSignatures s blindedMessages).get? i =
      (blindedMessages.get? i).map (fun m => s.blindedSignatures.lookup m) := by
  simp [MintMemoryDatabase.getBlindSignatures]

theorem restore_collect (g : BlindedMessage → Option BlindSignature)
    (outs : List BlindedMessage) :
    ((outs.zip (outs.map g)).foldr
        (fun p acc =>
          match p.2 with
          | some sg => (p.1 :: acc.1, sg :: acc.2)
          | none => acc)
        ([], [])) =
      (outs.filter (fun b => (g b).isSome), outs.filterMap g) := by
  induction outs with
  | nil => rfl
  | cons b bs ih =>
      simp only [List.map_cons, List.zip_cons_cons, List.foldr_cons, ih]
      cases hg : g b <;> simp [List.filter_cons, List.filterMap_cons, hg]

end Cdk
namespace Cdk

/-- Claim C10: for every list of blinded-message public keys,
`MintMemoryDatabase::get_blind_signatures` returns a vector with
exactly one entry (`Some` signature or `None`) per input key, in input
order, so the length assertion in `Mint::restore` never fails. -/
theorem c10_get_blind_signatures_one_slot_per_input
    (s : MemoryStorage) (blindedMessages : List Nat) :
    (MintMemoryDatabase.getBlindSignatures s blindedMessages).length =
        blindedMessages.length ∧
      ∀ i : Nat,
        (MintMemoryDatabase.getBlindSignatures s blindedMessages).get? i =
          (blindedMessages.get? i).map
            (fun m => s.blindedSignatures.lookup m) :=
  ⟨getBlindSignatures_length s blindedMessages,
   fun i => getBlindSignatures_get? s blindedMessages i⟩

/-- Claim C8: `Mint::restore` returns, without error, exactly the
subset of requested blinded messages that have a stored blind
signature, paired with those signatures, in request order; unmatched
messages are omitted from both lists. -/
theorem c8_restore_exact_stored_subset (s : MemoryStorage)
    (request : RestoreRequest) :
    Mint.restore s request =
      some
        { outputs := request.outputs.filter
            (fun b => (s.blindedSignatures.lookup b.blindedSecret).isSome),
          signatures := request.outputs.filterMap
            (fun b => s.blindedSignatures.lookup b.blindedSecret),
          promises := some (request.outputs.filterMap
            (fun b => s.blindedSignatures.lookup b.blindedSecret)) } := by
  simp only [Mint.restore, MintMemoryDatabase.getBlindSignatures,
    List.map_map, List.length_map, if_true]
  rw [restore_collect]
  simp only [Function.comp_def]

/-- Claim C2: `MintMemoryWriter::commit` merges the change set and
releases this writer's locks, but then executes `todo!()` and panics,
so it never returns `Ok`; the claim that commit returns successfully
for every transaction is contradicted on every input. -/
theorem c2_commit_always_panics (w : MintMemoryWriter) :
    (MintMemoryWriter.commit w).outcome = CommitOutcome.panicked ∧
      (MintMemoryWriter.commit w).lockTable =
        AccessManager.release w.lockTable w.id ∧
      (MintMemoryWriter.commit w).inner.proofs =
        w.inner.proofs.drainInto w.changes.proofs :=
  ⟨rfl, rfl, rfl⟩

/-- Claim C1: `add_proofs` writes straight into the canonical store,
not into the per-transaction change set, so the inserted proof is still
visible to a non-transactional read after the transaction rolls back;
the staged change set stays empty throughout. -/
theorem c1_addProofs_visible_after_rollback :
    (MintMemoryDatabase.getProofsByYs
        (MintMemoryWriter.rollback
          (MintMemoryWriter.addProofs
            (MintMemoryDatabase.beginTransaction MemoryStorage.emptyStorage
              Store.empty 0)
            [{ amount := 4, keysetId := ⟨[0, 0, 0], 1⟩,
               secret := SecretData.plain [7], c := 9 }]
            none)).inner
        [hashToCurve (SecretData.plain [7]).toBytes]) =
      [some { amount := 4, keysetId := ⟨[0, 0, 0], 1⟩,
              secret := SecretData.plain [7], c := 9 }] ∧
    (MintMemoryWriter.addProofs
        (MintMemoryDatabase.beginTransaction MemoryStorage.emptyStorage
          Store.empty 0)
        [{ amount := 4, keysetId := ⟨[0, 0, 0], 1⟩,
           secret := SecretData.plain [7], c := 9 }]
        none).changes = MemoryStorage.emptyStorage := by
  constructor
  · rfl
  · rfl

/-- Claim C7 counterexample: the non-transactional
`MintMemoryDatabase::get_melt_quote` reads the record without ever
waiting on the shared `access` primitive, so it is false that every
non-transactional read of a lockable record first waits for exclusive
locks on that record. -/
theorem c7_get_melt_quote_no_wait_counterexample :
    waitsBeforeEveryRead []
      (MintMemoryDatabase.getMeltQuoteTraced MemoryStorage.emptyStorage 0).2 =
      false := rfl

/-- Claim C7 (amended): only `get_mint_quote` waits on `access` before
reading its record; `get_melt_quote` performs no `access` wait at all;
`get_blind_signatures` emits an `access` wait for every requested key
but only after reading that key's signature, so its trace fails the
wait-before-read discipline whenever the request is nonempty. -/
theorem c7_wait_discipline :
    (∀ (s : MemoryStorage) (q : Nat),
      waitsBeforeEveryRead []
          (MintMemoryDatabase.getMintQuoteTraced s q).2 = true ∧
        neverWaits (MintMemoryDatabase.getMeltQuoteTraced s q).2 = true) ∧
      ∀ (s : MemoryStorage) (msgs : List Nat),
        (∀ m ∈ msgs,
          AccessEvent.accessWait (AnyId.blindSignature m) ∈
            (MintMemoryDatabase.getBlindSignaturesTraced s msgs).2) ∧
          (msgs ≠ [] →
            waitsBeforeEveryRead []
              (MintMemoryDatabase.getBlindSignaturesTraced s msgs).2 =
              false) := by
  refine ⟨fun s q => ⟨?_, rfl⟩, fun s msgs => ⟨?_, ?_⟩⟩
  · simp [MintMemoryDatabase.getMintQuoteTraced, waitsBeforeEveryRead]
  · intro m hm
    simp only [MintMemoryDatabase.getBlindSignaturesTraced, List.mem_flatMap]
    exact ⟨m, hm, by simp⟩
  · intro hne
    match msgs, hne with
    | m :: rest, _ =>
        simp [MintMemoryDatabase.getBlindSignaturesTraced,
          waitsBeforeEveryRead]

/-- Witness for C7 (amended) at concrete inputs: the mint-quote reader
obeys the wait-before-read discipline at quote id `0`, and the
blind-signature reader violates it on the nonempty request `[3]`. -/
theorem c7_wait_discipline_witness :
    waitsBeforeEveryRead []
        (MintMemoryDatabase.getMintQuoteTraced MemoryStorage.emptyStorage
          0).2 = true ∧
      waitsBeforeEveryRead []
        (MintMemoryDatabase.getBlindSignaturesTraced MemoryStorage.emptyStorage
          [3]).2 = false :=
  ⟨(c7_wait_discipline.1 MemoryStorage.emptyStorage 0).1,
   (c7_wait_discipline.2 MemoryStorage.emptyStorage [3]).2 (by simp)⟩

end Cdk
namespace Cdk

/-- Claim C6: `Mint::handle_internal_melt_mint` short-circuits internal
settlement: with no matching mint quote it returns `None`; with a
matching quote already `Issued` or `Paid` it fails with
`RequestAlreadyPaid`; with inputs summing below the mint quote's amount
it fails with `InsufficientFunds`; otherwise it sets the mint quote to
`Paid`, returns the melt quote's amount, and performs no external
payment. -/
theorem c6_handle_internal_melt_mint_spec (s : MemoryStorage)
    (meltQuote : MeltQuote) (meltRequest : MeltBolt11Request) :
    (MintMemoryDatabase.getMintQuoteByRequest s meltQuote.request = none →
      Mint.handleInternalMeltMint s meltQuote meltRequest =
        Except.ok { storage := s, settled := none, lnPayments := [] }) ∧
      ∀ mintQuote : MintQuote,
        MintMemoryDatabase.getMintQuoteByRequest s meltQuote.request =
            some mintQuote →
          ((mintQuote.state = MintQuoteState.issued ∨
              mintQuote.state = MintQuoteState.paid) →
            Mint.handleInternalMeltMint s meltQuote meltRequest =
              Except.error Err.requestAlreadyPaid) ∧
            ∀ total : Nat,
              meltRequest.proofsAmount = some total →
                mintQuote.state ≠ MintQuoteState.issued →
                mintQuote.state ≠ MintQuoteState.paid →
                (total < mintQuote.amount →
                    Mint.handleInternalMeltMint s meltQuote meltRequest =
                      Except.error Err.insufficientFunds) ∧
                  (mintQuote.amount ≤ total →
                    Mint.handleInternalMeltMint s meltQuote meltRequest =
                      Except.ok
                        { storage := Mint.updateMintQuote s
                            { mintQuote with state := MintQuoteState.paid },
                          settled := some meltQuote.amount,
                          lnPayments := [] }) := by
  refine ⟨fun hnone => ?_, fun mintQuote hsome => ⟨fun hstate => ?_,
    fun total htotal hni hnp => ⟨fun hlt => ?_, fun hge => ?_⟩⟩⟩
  · simp [Mint.handleInternalMeltMint, hnone]
  · simp [Mint.handleInternalMeltMint, hsome, hstate]
  · simp [Mint.handleInternalMeltMint, hsome, htotal, hni, hnp, hlt]
  · simp [Mint.handleInternalMeltMint, hsome, htotal, hni, hnp,
      Nat.not_lt.mpr hge]

/-- Witness for C6 at a concrete input: a stored mint quote with
request `5`, amount `10`, state `Unpaid`, and a melt request carrying a
single proof of amount `16`, settles internally for the melt quote's
amount `7`. -/
theorem c6_handle_internal_melt_mint_spec_witness :
    Mint.handleInternalMeltMint
        { mintQuotes := [(1,
            { id := 1, request := 5, requestLookupId := 0,
              unit := CurrencyUnit.sat, amount := 10,
              state := MintQuoteState.unpaid, expiry := 0 })] }
        { id := 2, request := 5, unit := CurrencyUnit.sat, amount := 7,
          feeReserve := 1, state := MeltQuoteState.unpaid, expiry := 0 }
        { quote := 2,
          inputs := [{ amount := 16, keysetId := ⟨[0, 0, 0], 1⟩,
                       secret := SecretData.plain [1], c := 0 }] } =
      Except.ok
        { storage := { mintQuotes := [(1,
            { id := 1, request := 5, requestLookupId := 0,
              unit := CurrencyUnit.sat, amount := 10,
              state := MintQuoteState.paid, expiry := 0 })] },
          settled := some 7, lnPayments := [] } := by
  have h := (c6_handle_internal_melt_mint_spec
    { mintQuotes := [(1,
        { id := 1, request := 5, requestLookupId := 0,
          unit := CurrencyUnit.sat, amount := 10,
          state := MintQuoteState.unpaid, expiry := 0 })] }
    { id := 2, request := 5, unit := CurrencyUnit.sat, amount := 7,
      feeReserve := 1, state := MeltQuoteState.unpaid, expiry := 0 }
    { quote := 2,
      inputs := [{ amount := 16, keysetId := ⟨[0, 0, 0], 1⟩,
                   secret := SecretData.plain [1], c := 0 }] }).2
    { id := 1, request := 5, requestLookupId := 0,
      unit := CurrencyUnit.sat, amount := 10,
      state := MintQuoteState.unpaid, expiry := 0 }
    (by decide)
  exact ((h.2 16 (by decide) (by decide) (by decide)).2 (by decide))

end Cdk
namespace Cdk

/-- Claim C3: `verify_proof` routes through `get_keypair_for_amount`,
which rejects any keyset that is not the unit's active keyset, so a
stored-but-inactive keyset makes verification fail with
`InactiveKeyset` even though the proof's DHKE equation holds (the
secret is plain, so no spending condition applies) and the keyset has
a keypair for the amount. -/
theorem c3_verify_proof_rejects_inactive_keyset :
    MemorySignatory.verifyProof
        { keysets := [({ path := [0, 0, 0], maxOrder := 1 },
            { id := { path := [0, 0, 0], maxOrder := 1 },
              unit := CurrencyUnit.sat, active := false,
              derivationPath := [0, 0, 0], derivationPathIndex := some 0,
              maxOrder := 1, inputFeePpk := 0 })],
          activeKeysets := [(CurrencyUnit.sat,
            { path := [0, 0, 1], maxOrder := 1 })] }
        { amount := 1, keysetId := { path := [0, 0, 0], maxOrder := 1 },
          secret := SecretData.plain [3],
          c := scalarMul (derivedSecretKey [0, 0, 0] 0)
            (hashToCurve (SecretData.plain [3]).toBytes) } =
      Except.error Err.inactiveKeyset ∧
    verifyMessage (derivedSecretKey [0, 0, 0] 0)
        (scalarMul (derivedSecretKey [0, 0, 0] 0)
          (hashToCurve (SecretData.plain [3]).toBytes))
        (SecretData.plain [3]).toBytes = true ∧
    (generateKeysetKeys [0, 0, 0] 1).lookup 1 =
      some { secretKey := derivedSecretKey [0, 0, 0] 0,
             publicKey := derivedSecretKey [0, 0, 0] 0 + 1 } := by
  refine ⟨rfl, ?_, rfl⟩
  simp [verifyMessage]

/-- Claim C5: cold-start reconciliation with stored keysets at indexes
`0` and `1` for sat, where the index-`1` keyset matches the configured
`(fee_ppk, max_order) = (1, 2)`: the constructor reactivates the
index-`1` keyset but, because the `continue` skips recording the unit,
the closing sweep then creates a fresh index-`0` keyset and activates
it, so the final active keyset is the index-`0` id, not the matching
highest-index id, and a new keyset is created. -/
theorem c5_cold_start_reactivation_overridden :
    (memorySignatoryNew
          { keysets := [({ path := [0, 0, 0], maxOrder := 2 },
              { id := { path := [0, 0, 0], maxOrder := 2 },
                unit := CurrencyUnit.sat, active := false,
                derivationPath := [0, 0, 0],
                derivationPathIndex := some 0, maxOrder := 2,
                inputFeePpk := 1 }),
             ({ path := [0, 0, 1], maxOrder := 2 },
              { id := { path := [0, 0, 1], maxOrder := 2 },
                unit := CurrencyUnit.sat, active := true,
                derivationPath := [0, 0, 1],
                derivationPathIndex := some 1, maxOrder := 2,
                inputFeePpk := 1 })],
            activeKeysets := [(CurrencyUnit.sat,
              { path := [0, 0, 1], maxOrder := 2 })] }
          [(CurrencyUnit.sat, (1, 2))] Store.empty).toOption.map
        (fun s => s.activeKeysets.lookup CurrencyUnit.sat) =
      some (some { path := [0, 0, 0], maxOrder := 2 }) ∧
    (memorySignatoryNew
          { keysets := [({ path := [0, 0, 0], maxOrder := 2 },
              { id := { path := [0, 0, 0], maxOrder := 2 },
                unit := CurrencyUnit.sat, active := false,
                derivationPath := [0, 0, 0],
                derivationPathIndex := some 0, maxOrder := 2,
                inputFeePpk := 1 }),
             ({ path := [0, 0, 1], maxOrder := 2 },
              { id := { path := [0, 0, 1], maxOrder := 2 },
                unit := CurrencyUnit.sat, active := true,
                derivationPath := [0, 0, 1],
                derivationPathIndex := some 1, maxOrder := 2,
                inputFeePpk := 1 })],
            activeKeysets := [(CurrencyUnit.sat,
              { path := [0, 0, 1], maxOrder := 2 })] }
          [(CurrencyUnit.sat, (1, 2))] Store.empty).toOption.map
        (fun s => s.keysets.lookup { path := [0, 0, 0], maxOrder := 2 }) =
      some (some
        { id := { path := [0, 0, 0], maxOrder := 2 },
          unit := CurrencyUnit.sat, active := true,
          derivationPath := [0, 0, 0], derivationPathIndex := some 0,
          maxOrder := 2, inputFeePpk := 1 }) ∧
    ({ path := [0, 0, 0], maxOrder := 2 } : KeysetId) ≠
      { path := [0, 0, 1], maxOrder := 2 } := by
  refine ⟨rfl, rfl, by decide⟩

/-- Claim C9: decoding the wire encoding returns the original witness
for every P2PK witness and every HTLC witness whose signature list is
absent or non-empty, while an HTLC witness carrying `Some []` encodes
to the empty wire list and decodes back to an absent signature list. -/
theorem c9_witness_codec_round_trip :
    (∀ w : CommonWitness, wireLossless w →
      witnessFromWire (witnessToWire w) = Except.ok w) ∧
    ∀ preimage : Nat,
      witnessFromWire (witnessToWire
          (CommonWitness.htlcWitness preimage (some []))) =
        Except.ok (CommonWitness.htlcWitness preimage none) := by
  constructor
  · intro w hw
    match w with
    | CommonWitness.p2pkWitness signatures => rfl
    | CommonWitness.htlcWitness preimage none => rfl
    | CommonWitness.htlcWitness preimage (some l) =>
        have hl : l ≠ [] := hw
        cases l with
        | nil => exact absurd rfl hl
        | cons a as => rfl
  · intro preimage
    rfl

/-- Witness for C9 at a concrete input: an HTLC witness with the
one-element signature list `[3]` survives the wire round trip. -/
theorem c9_witness_codec_round_trip_witness :
    witnessFromWire (witnessToWire
        (CommonWitness.htlcWitness 5 (some [3]))) =
      Except.ok (CommonWitness.htlcWitness 5 (some [3])) :=
  c9_witness_codec_round_trip.1 (CommonWitness.htlcWitness 5 (some [3]))
    (by simp [wireLossless])

/-- Claim C4 counterexample: three rotations in which two different
units are given the same custom derivation path (hence keysets with
identical keys and identical id) leave the `keysets()` response with
two distinct entries of unit sat both marked active, so the claim's
at-most-one-active-per-unit property fails for unrestricted
`rotate_keyset` sequences. -/
theorem c4_two_active_same_unit_counterexample :
    pairwiseNoDoubleActive
        (MemorySignatory.keysetsResponse
          (runRotations MemoryStorage.emptyStorage
            [{ unit := CurrencyUnit.msat, derivationPathIndex := 0,
               maxOrder := 2, inputFeePpk := 1,
               customPaths := [(CurrencyUnit.msat, [9, 9, 9])] },
             { unit := CurrencyUnit.sat, derivationPathIndex := 0,
               maxOrder := 2, inputFeePpk := 1,
               customPaths := [(CurrencyUnit.sat, [9, 9, 9])] },
             { unit := CurrencyUnit.sat, derivationPathIndex := 1,
               maxOrder := 2, inputFeePpk := 1,
               customPaths := [] }])) = false := by
  rfl

end Cdk
namespace Cdk

theorem mem_insert_of_mem {K V : Type} [DecidableEq K] (m : Store K V)
    (k : K) (v : V) {p : K × V} (hp : p ∈ m) (hne : p.1 ≠ k) :
    p ∈ m.insert k v := by
  induction m with
  | nil => cases hp
  | cons hd tl ih =>
      rcases List.mem_cons.mp hp with h1 | h1
      · subst h1
        simp only [Store.insert]
        rw [if_neg hne]
        exact List.mem_cons_self _ _
      · by_cases h2 : hd.1 = k
        · simp only [Store.insert, h2, if_true]
          exact List.mem_cons_of_mem _ h1
        · simp only [Store.insert, h2, if_false]
          exact List.mem_cons_of_mem _ (ih h1)

theorem pairwise_ne_of_nodupKeys {K V : Type} [DecidableEq K]
    (m : Store K V) (h : m.NodupKeys) :
    m.Pairwise (fun p q => p.1 ≠ q.1) := by
  induction m with
  | nil => exact List.Pairwise.nil
  | cons hd tl ih =>
      simp only [Store.NodupKeys, Store.keys, List.map_cons,
        List.nodup_cons] at h
      refine List.Pairwise.cons (fun q hq heq => ?_) (ih h.2)
      exact h.1 (heq ▸ List.mem_map.mpr ⟨q, hq, rfl⟩)

theorem unitFromIndex_of_derivationIndex {u : CurrencyUnit} {n : Nat}
    (h : u.derivationIndex = some n) : unitFromIndex n = some u := by
  cases u <;> simp only [CurrencyUnit.derivationIndex,
    Option.some.injEq] at h <;> first
    | (subst h; rfl)
    | cases h

theorem sigInv_empty : SigInv MemoryStorage.emptyStorage := by
  refine ⟨?_, ?_, ?_, ?_, ?_⟩ <;>
    simp [MemoryStorage.emptyStorage, Store.NodupKeys, Store.keys,
      Store.empty]

theorem rotate_default_inv {s : MemoryStorage} {c : RotateCall}
    {s2 : MemoryStorage} {info : MintKeySetInfo} (hInv : SigInv s)
    (hcp : c.customPaths = Store.empty)
    (h : MemorySignatory.rotateKeyset s c = Except.ok (s2, info)) :
    SigInv s2 ∧ s2.activeKeysets.lookup c.unit = some info.id ∧
      info.unit = c.unit := by
  rw [MemorySignatory.rotateKeyset, hcp] at h
  simp only [Store.empty, Store.lookup, derivationPathFromUnit] at h
  cases hui : c.unit.derivationIndex with
  | none =>
      rw [hui] at h
      simp only [Option.map] at h
      exact Except.noConfusion h
  | some unitIndex =>
      rw [hui] at h
      simp only [Option.map] at h
      rw [Except.ok.injEq, Prod.mk.injEq] at h
      obtain ⟨hs2, hinfo⟩ := h
      have hunit : unitOfId
          (⟨[0, unitIndex, c.derivationPathIndex],
            c.maxOrder⟩ : KeysetId) = some c.unit := by
        simp [unitOfId, unitFromIndex_of_derivationIndex hui]
      subst hinfo
      subst hs2
      refine ⟨⟨?_, ?_, ?_, ?_, ?_⟩, ?_, rfl⟩
      · exact Store.nodupKeys_insert _ _ _ hInv.keysNodup
      · exact Store.nodupKeys_insert _ _ _ hInv.activeNodup
      · intro p hp
        rcases Store.mem_insert _ _ _ hp with h1 | h1
        · subst h1
          exact ⟨rfl, hunit⟩
        · exact hInv.keysetsUnit p h1
      · intro q hq
        rcases Store.mem_insert _ _ _ hq with h1 | h1
        · subst h1
          exact hunit
        · exact hInv.activeUnit q h1
      · intro q hq
        rcases Store.mem_insert _ _ _ hq with h1 | h1
        · subst h1
          exact ⟨_, Store.self_mem_insert _ _ _⟩
        · obtain ⟨info0, hinfo0⟩ := hInv.activeInKeysets q h1
          by_cases h2 : q.2 =
            (⟨[0, unitIndex, c.derivationPathIndex], c.maxOrder⟩ : KeysetId)
          · rw [h2]
            exact ⟨_, Store.self_mem_insert _ _ _⟩
          · exact ⟨info0, mem_insert_of_mem _ _ _ hinfo0 h2⟩
      · exact Store.lookup_insert_self _ _ _

theorem runRotations_inv (calls : List RotateCall) (s : MemoryStorage)
    (hInv : SigInv s) (hcp : ∀ c ∈ calls, c.customPaths = Store.empty) :
    SigInv (runRotations s calls) := by
  induction calls generalizing s with
  | nil => exact hInv
  | cons c rest ih =>
      have hc : c.customPaths = Store.empty := hcp c (List.mem_cons_self _ _)
      have hrest : ∀ x ∈ rest, x.customPaths = Store.empty :=
        fun x hx => hcp x (List.mem_cons_of_mem _ hx)
      simp only [runRotations]
      cases hr : MemorySignatory.rotateKeyset s c with
      | error e => exact ih s hInv hrest
      | ok r =>
          exact ih r.1 (rotate_default_inv hInv hc
            (by rw [hr])).1 hrest

theorem active_unique_of_inv {s : MemoryStorage} (hInv : SigInv s)
    {p q : KeysetId × MintKeySetInfo} (hp : p ∈ s.keysets)
    (hq : q ∈ s.keysets) (hpa : p.2.id ∈ s.activeKeysets.values)
    (hqa : q.2.id ∈ s.activeKeysets.values)
    (huv : p.2.unit = q.2.unit) : p.1 = q.1 := by
  obtain ⟨w1, hw1⟩ := (Store.mem_values_iff _ _).mp hpa
  obtain ⟨w2, hw2⟩ := (Store.mem_values_iff _ _).mp hqa
  obtain ⟨hpid, hpunit⟩ := hInv.keysetsUnit p hp
  obtain ⟨hqid, hqunit⟩ := hInv.keysetsUnit q hq
  have h1 := hInv.activeUnit _ hw1
  have h2 := hInv.activeUnit _ hw2
  rw [hpid] at hw1 hpa
  rw [hqid] at hw2 hqa
  simp only at h1 h2
  rw [hpid] at h1
  rw [hqid] at h2
  have hwp : w1 = p.2.unit := by
    have := h1.symm.trans hpunit
    exact Option.some.inj this
  have hwq : w2 = q.2.unit := by
    have := h2.symm.trans hqunit
    exact Option.some.inj this
  have hww : w1 = w2 := by rw [hwp, hwq, huv]
  subst hww
  have e1 := Store.lookup_eq_some_of_mem _ hInv.activeNodup hw1
  have e2 := Store.lookup_eq_some_of_mem _ hInv.activeNodup hw2
  exact Option.some.inj (e1.symm.trans e2)

theorem pairwiseNoDoubleActive_of_pairwise
    (l : List KeySetInfoResponse)
    (h : l.Pairwise (fun a b =>
      a.active = true → b.active = true → a.unit = b.unit → False)) :
    pairwiseNoDoubleActive l = true := by
  induction l with
  | nil => rfl
  | cons a rest ih =>
      rcases List.pairwise_cons.mp h with ⟨ha, hrest⟩
      simp only [pairwiseNoDoubleActive, Bool.and_eq_true, List.all_eq_true]
      refine ⟨fun b hb => ?_, ih hrest⟩
      by_cases h1 : a.active = true
      · by_cases h2 : b.active = true
        · by_cases h3 : a.unit = b.unit
          · exact absurd (ha b hb h1 h2 h3) (fun x => x)
          · simp [h3]
        · simp [h2]
      · simp [h1]

theorem keysetsResponse_no_double_active {s : MemoryStorage}
    (hInv : SigInv s) :
    pairwiseNoDoubleActive (MemorySignatory.keysetsResponse s) = true := by
  apply pairwiseNoDoubleActive_of_pairwise
  simp only [MemorySignatory.keysetsResponse,
    MintMemoryDatabase.getKeysetInfos, Store.values, List.map_map]
  rw [List.pairwise_map]
  refine List.Pairwise.imp_of_mem ?_
    (pairwise_ne_of_nodupKeys s.keysets hInv.keysNodup)
  intro p q hp hq hne h1 h2 h3
  exact hne (active_unique_of_inv hInv hp hq (of_decide_eq_true h1)
    (of_decide_eq_true h2) h3)

theorem active_entry_unique {s : MemoryStorage} (hInv : SigInv s)
    (u : CurrencyUnit) (i : KeysetId)
    (hl : s.activeKeysets.lookup u = some i) :
    (∃ k ∈ MemorySignatory.keysetsResponse s,
      k.id = i ∧ k.unit = u ∧ k.active = true) ∧
      ∀ k ∈ MemorySignatory.keysetsResponse s,
        k.unit = u → k.active = true → k.id = i := by
  have hui : (u, i) ∈ s.activeKeysets := Store.mem_of_lookup_eq_some hl
  have hiv : i ∈ s.activeKeysets.values :=
    (Store.mem_values_iff _ _).mpr ⟨u, hui⟩
  obtain ⟨info, hinfo⟩ := hInv.activeInKeysets (u, i) hui
  obtain ⟨hid, hunit⟩ := hInv.keysetsUnit _ hinfo
  have huou : unitOfId i = some u := hInv.activeUnit (u, i) hui
  simp only at hid hunit huou
  have hinfou : info.unit = u := by
    have := huou.symm.trans hunit
    exact (Option.some.inj this).symm
  constructor
  · refine ⟨⟨info.id, info.unit,
      decide (info.id ∈ s.activeKeysets.values), info.inputFeePpk⟩,
      ?_, hid, hinfou, ?_⟩
    · exact List.mem_map.mpr ⟨info,
        List.mem_map.mpr ⟨(i, info), hinfo, rfl⟩, rfl⟩
    · rw [hid]
      simp only [decide_eq_true_eq]
      exact hiv
  · intro k hk hku hka
    simp only [MemorySignatory.keysetsResponse,
      MintMemoryDatabase.getKeysetInfos, Store.values, List.mem_map] at hk
    rcases hk with ⟨info2, hinfo2, hke⟩
    rcases hinfo2 with ⟨p, hpmem, hpe⟩
    subst hpe
    obtain ⟨hid2, hunit2⟩ := hInv.keysetsUnit p hpmem
    rw [← hke] at hku hka
    obtain ⟨a, hamem, hae⟩ := of_decide_eq_true hka
    have hku2 : p.2.unit = u := hku
    have hwunit := hInv.activeUnit a hamem
    rw [hae, hid2] at hwunit
    have ha1 : a.1 = u := by
      have h6 := Option.some.inj (hwunit.symm.trans hunit2)
      rw [h6, hku2]
    have hamem2 : (u, p.1) ∈ s.activeKeysets := by
      have hae2 : a = (u, p.1) := by
        cases a
        simp only at hae ha1 ⊢
        rw [ha1, hae, hid2]
      rw [← hae2]
      exact hamem
    have hlp := Store.lookup_eq_some_of_mem _ hInv.activeNodup hamem2
    have hpi : p.1 = i := Option.some.inj (hlp.symm.trans hl)
    rw [← hke]
    show p.2.id = i
    rw [hid2, hpi]

theorem rotate_ok_active {s : MemoryStorage} {c : RotateCall}
    {s2 : MemoryStorage} {info : MintKeySetInfo}
    (h : MemorySignatory.rotateKeyset s c = Except.ok (s2, info)) :
    s2.activeKeysets = s.activeKeysets.insert c.unit info.id := by
  rw [MemorySignatory.rotateKeyset] at h
  cases hcl : c.customPaths.lookup c.unit with
  | some path =>
      rw [hcl] at h
      simp only [] at h
      rw [Except.ok.injEq, Prod.mk.injEq] at h
      obtain ⟨hs2, hinfo⟩ := h
      subst hinfo
      subst hs2
      rfl
  | none =>
      rw [hcl] at h
      simp only [] at h
      cases hdp : derivationPathFromUnit c.unit c.derivationPathIndex with
      | none =>
          rw [hdp] at h
          simp only [] at h
          exact Except.noConfusion h
      | some path =>
          rw [hdp] at h
          simp only [] at h
          rw [Except.ok.injEq, Prod.mk.injEq] at h
          obtain ⟨hs2, hinfo⟩ := h
          subst hinfo
          subst hs2
          rfl

theorem runRotations_append (s : MemoryStorage) (l1 l2 : List RotateCall) :
    runRotations s (l1 ++ l2) = runRotations (runRotations s l1) l2 := by
  induction l1 generalizing s with
  | nil => rfl
  | cons x rest ih =>
      simp only [List.cons_append, runRotations]
      cases hr : MemorySignatory.rotateKeyset s x with
      | error e => exact ih s
      | ok r => exact ih r.1

theorem runRotations_lookup_of_no_unit (post : List RotateCall)
    (s : MemoryStorage) (u : CurrencyUnit)
    (h : ∀ x ∈ post, x.unit ≠ u) :
    (runRotations s post).activeKeysets.lookup u =
      s.activeKeysets.lookup u := by
  induction post generalizing s with
  | nil => rfl
  | cons x rest ih =>
      have hx : x.unit ≠ u := h x (List.mem_cons_self _ _)
      have hrest : ∀ y ∈ rest, y.unit ≠ u :=
        fun y hy => h y (List.mem_cons_of_mem _ hy)
      simp only [runRotations]
      cases hr : MemorySignatory.rotateKeyset s x with
      | error e => exact ih s hrest
      | ok r =>
          rw [ih r.1 hrest]
          rw [@rotate_ok_active s x r.1 r.2 (by rw [hr])]
          exact Store.lookup_insert_ne _ _ _ _ hx

theorem active_entry_lookup {s : MemoryStorage} (hInv : SigInv s) :
    ∀ k ∈ MemorySignatory.keysetsResponse s, k.active = true →
      s.activeKeysets.lookup k.unit = some k.id := by
  intro k hk hka
  simp only [MemorySignatory.keysetsResponse,
    MintMemoryDatabase.getKeysetInfos, Store.values, List.mem_map] at hk
  rcases hk with ⟨info2, hinfo2, hke⟩
  rcases hinfo2 with ⟨p, hpmem, hpe⟩
  subst hpe
  obtain ⟨hid2, hunit2⟩ := hInv.keysetsUnit p hpmem
  rw [← hke] at hka
  obtain ⟨a, hamem, hae⟩ := of_decide_eq_true hka
  have hwunit := hInv.activeUnit a hamem
  rw [hae, hid2] at hwunit
  have ha1 : a.1 = p.2.unit :=
    Option.some.inj (hwunit.symm.trans hunit2)
  have hamem2 : (p.2.unit, p.1) ∈ s.activeKeysets := by
    have hae2 : a = (p.2.unit, p.1) := by
      cases a
      simp only at hae ha1 ⊢
      rw [ha1, hae, hid2]
    rw [← hae2]
    exact hamem
  have hlp := Store.lookup_eq_some_of_mem _ hInv.activeNodup hamem2
  rw [← hke]
  show s.activeKeysets.lookup p.2.unit = some p.2.id
  rw [hid2]
  exact hlp

/-- Claim C4 (amended): for every sequence of `rotate_keyset` calls in
which no call supplies a custom derivation path, the `keysets()`
response never marks two keysets of the same unit active; an entry is
marked active exactly when the active-keyset map binds its unit to its
id; and for every unit that binding is the keyset produced by the
unit's most recent successful rotation, unchanged by any later
rotations of other units — so the response marks exactly each unit's
most recently rotated keyset active. -/
theorem c4_at_most_one_active_per_unit (calls : List RotateCall)
    (hcp : ∀ c ∈ calls, c.customPaths = Store.empty) :
    pairwiseNoDoubleActive
        (MemorySignatory.keysetsResponse
          (runRotations MemoryStorage.emptyStorage calls)) = true ∧
      (∀ k ∈ MemorySignatory.keysetsResponse
          (runRotations MemoryStorage.emptyStorage calls),
        k.active = true →
          (runRotations MemoryStorage.emptyStorage
              calls).activeKeysets.lookup k.unit = some k.id) ∧
      (∀ (u : CurrencyUnit) (i : KeysetId),
        (runRotations MemoryStorage.emptyStorage
            calls).activeKeysets.lookup u = some i →
          ∃ k ∈ MemorySignatory.keysetsResponse
              (runRotations MemoryStorage.emptyStorage calls),
            k.id = i ∧ k.unit = u ∧ k.active = true) ∧
      ∀ (pre : List RotateCall) (c : RotateCall) (post : List RotateCall)
        (s2 : MemoryStorage) (info : MintKeySetInfo),
        calls = pre ++ c :: post →
          (∀ x ∈ post, x.unit ≠ c.unit) →
          MemorySignatory.rotateKeyset
              (runRotations MemoryStorage.emptyStorage pre) c =
            Except.ok (s2, info) →
          (runRotations MemoryStorage.emptyStorage
              calls).activeKeysets.lookup c.unit = some info.id := by
  have hInv := runRotations_inv calls MemoryStorage.emptyStorage
    sigInv_empty hcp
  refine ⟨keysetsResponse_no_double_active hInv,
    active_entry_lookup hInv, ?_, ?_⟩
  · intro u i hl
    exact (active_entry_unique hInv u i hl).1
  · intro pre c post s2 info hcalls hpost hrot
    subst hcalls
    rw [runRotations_append]
    have hstep : runRotations
        (runRotations MemoryStorage.emptyStorage pre) (c :: post) =
        runRotations s2 post := by
      simp only [runRotations, hrot]
    rw [hstep, runRotations_lookup_of_no_unit post s2 c.unit hpost,
      rotate_ok_active hrot]
    exact Store.lookup_insert_self _ _ _

/-- Witness for C4 (amended) at a concrete input: over the two-call
sequence sat-then-msat (default paths), the response has no
doubly-active unit, and the active keyset of sat is still the one
produced by the sat rotation after the later msat rotation. -/
theorem c4_at_most_one_active_per_unit_witness :
    pairwiseNoDoubleActive
        (MemorySignatory.keysetsResponse
          (runRotations MemoryStorage.emptyStorage
            [{ unit := CurrencyUnit.sat, derivationPathIndex := 0,
               maxOrder := 1, inputFeePpk := 1, customPaths := [] },
             { unit := CurrencyUnit.msat, derivationPathIndex := 0,
               maxOrder := 1, inputFeePpk := 1, customPaths := [] }])) =
        true ∧
      (runRotations MemoryStorage.emptyStorage
          [{ unit := CurrencyUnit.sat, derivationPathIndex := 0,
             maxOrder := 1, inputFeePpk := 1, customPaths := [] },
           { unit := CurrencyUnit.msat, derivationPathIndex := 0,
             maxOrder := 1, inputFeePpk := 1,
             customPaths := [] }]).activeKeysets.lookup
          CurrencyUnit.sat =
        some { path := [0, 0, 0], maxOrder := 1 } := by
  have h := c4_at_most_one_active_per_unit
    [{ unit := CurrencyUnit.sat, derivationPathIndex := 0,
       maxOrder := 1, inputFeePpk := 1, customPaths := [] },
     { unit := CurrencyUnit.msat, derivationPathIndex := 0,
       maxOrder := 1, inputFeePpk := 1, customPaths := [] }]
    (by intro c hc; simp at hc; rcases hc with hc | hc <;> subst hc <;> rfl)
  refine ⟨h.1, ?_⟩
  exact h.2.2.2 []
    { unit := CurrencyUnit.sat, derivationPathIndex := 0,
      maxOrder := 1, inputFeePpk := 1, customPaths := [] }
    [{ unit := CurrencyUnit.msat, derivationPathIndex := 0,
       maxOrder := 1, inputFeePpk := 1, customPaths := [] }]
    { keysets := [({ path := [0, 0, 0], maxOrder := 1 },
        { id := { path := [0, 0, 0], maxOrder := 1 },
          unit := CurrencyUnit.sat, active := true,
          derivationPath := [0, 0, 0], derivationPathIndex := some 0,
          maxOrder := 1, inputFeePpk := 1 })],
      activeKeysets := [(CurrencyUnit.sat,
        { path := [0, 0, 0], maxOrder := 1 })] }
    { id := { path := [0, 0, 0], maxOrder := 1 },
      unit := CurrencyUnit.sat, active := true,
      derivationPath := [0, 0, 0], derivationPathIndex := some 0,
      maxOrder := 1, inputFeePpk := 1 }
    rfl
    (by intro x hx; simp at hx; subst hx; decide)
    rfl

end Cdk
